import Mathlib

/-!
Shallow embedding of `smd_hpi/model-converter/main.cpp` (BMXNet model
converter): the Weight Packer (`convert_params_file` / `convert_to_binary`)
and the Graph Annotator (`convert_json_file`), plus the driver `main`.

Fatal conditions (C `assert`, dmlc `CHECK`, uncaught exceptions,
`std::string::erase` out of range) are modelled as `none` of an `Option`
result: `none` means the process terminated without producing a result and
without writing any further output file.
-/

namespace ModelConverter

/-! ## Strings: substring containment, `std::string::find(pat) != npos` -/

/-- `charsStartWith pat l` : `pat` is an initial segment of `l`. -/
def charsStartWith : List Char → List Char → Bool
  | [], _ => true
  | _ :: _, [] => false
  | p :: ps, c :: cs => p = c && charsStartWith ps cs

/-- `charsContain hay pat` : `pat` occurs contiguously somewhere in `hay`. -/
def charsContain : List Char → List Char → Bool
  | [], pat => pat.isEmpty
  | c :: rest, pat => charsStartWith pat (c :: rest) || charsContain rest pat

/-- C++ `s.find(pat) != std::string::npos`: `pat` occurs as a contiguous
substring of `s` (always true for the empty pattern). -/
def hasSubstr (s pat : String) : Bool :=
  charsContain s.data pat.data

/-! ## Tensors (`mxnet::NDArray`, restricted to what `main.cpp` uses) -/

/-- Element types (mshadow dtypes) as far as the converter observes them.
`uint32` stands for the packed-word type `BINARY_WORD` of the 32-bit build. -/
inductive DType where
  | float16
  | float32
  | float64
  | uint8
  | uint32
  | int32
  | int64
  deriving DecidableEq, Repr

/-- `mshadow::mshadow_sizeof`: byte width of an element type. -/
def mshadow_sizeof : DType → Nat
  | DType.float16 => 2
  | DType.float32 => 4
  | DType.float64 => 8
  | DType.uint8 => 1
  | DType.uint32 => 4
  | DType.int32 => 4
  | DType.int64 => 8

/-- `BITS_PER_BINARY_WORD` from `xnor_cpu.h`: bit width of one packed word
(32 in the 32-bit build modelled here; the spec calls it a build constant). -/
def BITS_PER_BINARY_WORD : Nat := 32

/-- `sizeof(BINARY_WORD)` for the modelled 32-bit build. -/
def sizeof_BINARY_WORD : Nat := 4

/-- The element type of `BINARY_WORD` (`uint32_t` in the 32-bit build). -/
def BINARY_WORD_dtype : DType := DType.uint32

/-- A dense tensor: shape, element-type tag, and raw element payload.
Payload values are modelled as integers: for floating-point tensors only the
sign matters to this program, for packed tensors each entry is one word. -/
structure Tensor where
  shape : List Nat
  dtype : DType
  data : List Int
  deriving DecidableEq, Repr

/-- Modelled from the spec: the sign bit taken by the packing routine
`get_binary_row` of `smd_hpi/src/xnor_cpu.h` (that header is not under
`src/`): 1 for a nonnegative value, 0 otherwise (the spec leaves the exact
convention open; no claim depends on it). -/
def signBit (x : Int) : Nat :=
  if 0 ≤ x then 1 else 0

/-- Modelled from the spec: `get_binary_row` of `smd_hpi/src/xnor_cpu.h`
(not under `src/`): packs the signs of `size` consecutive input values into
`size / BITS_PER_BINARY_WORD` words, one bit per original element,
least-significant bit first. -/
def get_binary_row (input : List Int) (size : Nat) : List Int :=
  (List.range (size / BITS_PER_BINARY_WORD)).map (fun w =>
    ((List.range BITS_PER_BINARY_WORD).foldl
      (fun acc b => acc + signBit (input.getD (w * BITS_PER_BINARY_WORD + b) 0) * 2 ^ b) 0 : Nat))

/-- `convert_to_binary` (main.cpp:28): binarize one NDArray in place.
The three C `assert`s become `none` (process abort):
byte width of the element type must equal `sizeof(BINARY_WORD)`, the shape
must have at least 2 dimensions, and the second dimension must be divisible
by `BITS_PER_BINARY_WORD`. On success the tensor is replaced by a
1-dimensional tensor of `size / BITS_PER_BINARY_WORD` packed words; the
new NDArray is created with `array.dtype()`, so the element-type tag is
unchanged. -/
def convert_to_binary (array : Tensor) : Option Tensor :=
  if mshadow_sizeof array.dtype ≠ sizeof_BINARY_WORD then none
  else if array.shape.length < 2 then none
  else if array.shape.getD 1 0 % BITS_PER_BINARY_WORD ≠ 0 then none
  else
    some { shape := [array.shape.prod / BITS_PER_BINARY_WORD],
           dtype := array.dtype,
           data := get_binary_row array.data array.shape.prod }

/-! ## Weight Packer (`convert_params_file`, main.cpp:48) -/

/-- The two fixed filter substrings (main.cpp:59). -/
def filter_strings : List String := ["qconvolution", "qfullyconnected"]

/-- `containsFilterString` (main.cpp:62): the key contains at least one of
the filter substrings. -/
def containsFilterString (line_in_params : String) : Bool :=
  filter_strings.any (fun filter_string => hasSubstr line_in_params filter_string)

/-- One iteration of the conversion loop (main.cpp:75-85) for a single
checkpoint entry: a key matching a filter substring must also contain
"weight" (`CHECK`, fatal otherwise) and its tensor is binarized; any other
key is left untouched. -/
def processEntry (key : String) (t : Tensor) : Option Tensor :=
  if containsFilterString key then
    if hasSubstr key "weight" then convert_to_binary t
    else none
  else some t

/-- The whole conversion loop over the ordered (key, tensor) pairs of the
checkpoint: entries are processed left to right, any fatal entry aborts the
run (`none`). -/
def convertEntries : List (String × Tensor) → Option (List (String × Tensor))
  | [] => some []
  | (k, t) :: rest =>
    match processEntry k t with
    | none => none
    | some t' =>
      match convertEntries rest with
      | none => none
      | some rest' => some ((k, t') :: rest')

/-! ## A file-system model for the driver-level claims -/

/-- Graph documents (rapidjson values) as far as `main.cpp` observes them.
Objects are ordered member lists; rapidjson member lookup returns the first
member with the given name. -/
inductive JValue where
  | jnull
  | jbool (b : Bool)
  | jnum (n : Int)
  | jstr (s : String)
  | jarr (elems : List JValue)
  | jobj (members : List (String × JValue))

/-- The files the converter can read or write: checkpoint (`.params`) files
as ordered (key, tensor) lists, JSON files as parsed documents. Writing
prepends, lookup finds the most recent write. -/
structure FS where
  params : List (String × List (String × Tensor))
  jsons : List (String × JValue)

/-- Look a file up by name (most recent write first). -/
def lookupFile {α : Type} : List (String × α) → String → Option α
  | [], _ => none
  | (n, v) :: rest, name => if n = name then some v else lookupFile rest name

/-- Write (or overwrite) a file. -/
def writeFile {α : Type} (files : List (String × α)) (name : String) (v : α) :
    List (String × α) :=
  (name, v) :: files

/-- `convert_params_file` (main.cpp:48): load the checkpoint at
`input_file`, run the conversion loop, save to `output_file`, return 0.
A missing input file (dmlc `Stream::Create` throws) or any fatal entry
aborts the process (`none`) before the output file is written; the only
`return` statement of the source returns 0. -/
def convert_params_file (fs : FS) (input_file output_file : String) :
    Option (Int × FS) :=
  match lookupFile fs.params input_file with
  | none => none
  | some entries =>
    match convertEntries entries with
    | none => none
    | some entries' =>
      some (0, { fs with params := writeFile fs.params output_file entries' })

/-! ## Graph Annotator (`convert_json_file`, main.cpp:103) -/

/-- rapidjson `FindMember` / `operator[]` on an object's member list:
returns the value of the first member with the given name. -/
def findMember : List (String × JValue) → String → Option JValue
  | [], _ => none
  | (k, v) :: rest, key => if k = key then some v else findMember rest key

/-- In-place mutation through the reference returned by `operator[]`:
replace the value of the first member with the given name. -/
def replaceMember : List (String × JValue) → String → JValue →
    List (String × JValue)
  | [], _, _ => []
  | (k, w) :: rest, key, v =>
    if k = key then (k, v) :: rest else (k, w) :: replaceMember rest key v

/-- Modelled from the spec: member insertion into an attribute map
(rapidjson `AddMember`, whose implementation is not under `src/`). Per the
spec, if the key already exists the behavior is last-write-wins with no
duplicate keys; otherwise the member is appended. -/
def addMember (members : List (String × JValue)) (key : String) (v : JValue) :
    List (String × JValue) :=
  match findMember members key with
  | some _ => replaceMember members key v
  | none => members ++ [(key, v)]

/-- The loop guard (main.cpp:125-127): the node has a member "op" that is a
string equal to "QConvolution" or "QFullyConnected". -/
def opMatches (members : List (String × JValue)) : Bool :=
  match findMember members "op" with
  | some (JValue.jstr s) => s = "QConvolution" || s = "QFullyConnected"
  | _ => false

/-- One iteration of the node loop (main.cpp:124-137). A node that fails the
guard is skipped unchanged (`continue`). A matching node must have a member
"attr" holding an object (`assert` plus rapidjson's own `AddMember`
precondition) — to it the member `"binarized_weights_only" : "True"` is
added — and a member "name" holding a string (`assert` plus `GetString`);
any violated condition aborts the process (`none`). Iterating a non-object
node aborts inside rapidjson `HasMember` (`none`). -/
def annotateNode (node : JValue) : Option JValue :=
  match node with
  | JValue.jobj members =>
    if opMatches members then
      match findMember members "attr" with
      | some (JValue.jobj attrs) =>
        match findMember members "name" with
        | some (JValue.jstr _) =>
          some (JValue.jobj (replaceMember members "attr"
            (JValue.jobj (addMember attrs "binarized_weights_only" (JValue.jstr "True")))))
        | _ => none
      | _ => none
    else some node
  | _ => none

/-- The node loop over the whole "nodes" array, left to right. -/
def annotateNodes : List JValue → Option (List JValue)
  | [] => some []
  | n :: rest =>
    match annotateNode n with
    | none => none
    | some n' =>
      match annotateNodes rest with
      | none => none
      | some rest' => some (n' :: rest')

/-- The document transformation of `convert_json_file` (main.cpp:117-141):
the parsed document must have a member "nodes" (`assert`) holding an array
(`assert`); every node is annotated in place. -/
def convert_json_document (d : JValue) : Option JValue :=
  match d with
  | JValue.jobj members =>
    match findMember members "nodes" with
    | some (JValue.jarr nodes) =>
      match annotateNodes nodes with
      | none => none
      | some nodes' =>
        some (JValue.jobj (replaceMember members "nodes" (JValue.jarr nodes')))
    | some _ => none
    | none => none
  | _ => none

/-- `convert_json_file` (main.cpp:103): if the input file cannot be opened,
report and `return -1` without writing anything; otherwise transform the
document (structural `assert` failures abort the process, `none`), write the
result to `output_fname` and return 0. -/
def convert_json_file (fs : FS) (input_fname output_fname : String) :
    Option (Int × FS) :=
  match lookupFile fs.jsons input_fname with
  | none => some (-1, fs)
  | some d =>
    match convert_json_document d with
    | none => none
    | some d' =>
      some (0, { fs with jsons := writeFile fs.jsons output_fname d' })

/-! ## Driver (`main`, main.cpp:163) -/

/-- Index of the last occurrence of `c` in `l` (accumulator at offset `i`). -/
def lastIdxAux (c : Char) : List Char → Nat → Option Nat → Option Nat
  | [], _, acc => acc
  | x :: xs, i, acc => lastIdxAux c xs (i + 1) (if x = c then some i else acc)

/-- `std::string::rfind(c)`: index of the last occurrence of `c`, `none`
for `npos`. -/
def rfindChar (s : String) (c : Char) : Option Nat :=
  lastIdxAux c s.data 0 none

/-- The first `n` characters of `s`. -/
def takeChars (s : String) (n : Nat) : String :=
  ⟨s.data.take n⟩

/-- `s` without its first `n` characters. -/
def dropChars (s : String) (n : Nat) : String :=
  ⟨s.data.drop n⟩

/-- Modelled from the spec: POSIX `dirname` (libc, not under `src/`) as the
spec's path derivation uses it — everything before the last path separator,
"." when there is none. -/
def dirnameStr (s : String) : String :=
  match rfindChar s '/' with
  | none => "."
  | some i => if i = 0 then "/" else takeChars s i

/-- Modelled from the spec: POSIX `basename` (libc, not under `src/`) as the
spec's path derivation uses it — everything after the last path separator. -/
def basenameStr (s : String) : String :=
  match rfindChar s '/' with
  | none => s
  | some i => dropChars s (i + 1)

/-- `main` (main.cpp:163) on the argument list after `argv[0]`. With a wrong
argument count it prints usage and returns -1. Otherwise it derives the
output paths: `base_name.erase(base_name.rfind('-'))` throws
`std::out_of_range` when the basename has no hyphen (`none`; the source
comments "watchout if no '-'"). Each stage's nonzero result is observed
through `if (int ret = stage() != 0) return ret;` — the comparison result,
0 or 1, is what is returned. -/
def mainRun (fs : FS) (args : List String) : Option (Int × FS) :=
  match args with
  | [params_file] =>
    let path := dirnameStr params_file
    let params_file_name := basenameStr params_file
    match rfindChar params_file_name '-' with
    | none => none
    | some i =>
      let base_name := takeChars params_file_name i
      let output_name := path ++ "/" ++ "binarized_" ++ params_file_name
      match convert_params_file fs params_file output_name with
      | none => none
      | some (r1, fs1) =>
        let ret1 : Int := if r1 ≠ 0 then 1 else 0
        if ret1 ≠ 0 then some (ret1, fs1)
        else
          let json_file_name := path ++ "/" ++ base_name ++ "-symbol.json"
          let json_out_fname := path ++ "/" ++ "binarized_" ++ base_name ++ "-symbol.json"
          match convert_json_file fs1 json_file_name json_out_fname with
          | none => none
          | some (r2, fs2) =>
            let ret2 : Int := if r2 ≠ 0 then 1 else 0
            if ret2 ≠ 0 then some (ret2, fs2) else some (0, fs2)
  | _ => some (-1, fs)

/-! ## Concrete fixtures used by witnesses and counterexamples -/

/-- A well-formed binarizable weight tensor: shape `[1, 32]`, all ones. -/
def t5 : Tensor := { shape := [1, 32], dtype := DType.float32, data := List.replicate 32 1 }

/-- The packed form of `t5`: one word with all 32 sign bits set. -/
def t5pack : Tensor := { shape := [1], dtype := DType.float32, data := [4294967295] }

/-- A tensor whose second dimension is not divisible by the word width. -/
def tBad : Tensor := { shape := [2, 3], dtype := DType.float32, data := [1, -1, 1, -1, 1, -1] }

/-- A bias-like tensor (never binarized in the fixtures). -/
def tb : Tensor := { shape := [4], dtype := DType.float32, data := [1, 2, 3, 4] }

/-- Default entry for positional (`getD`) indexing of checkpoints. -/
def dummyEntry : String × Tensor := ("", { shape := [], dtype := DType.float32, data := [] })

/-- Fixture checkpoint: one binarizable weight, one untouched entry. -/
def entries1 : List (String × Tensor) := [("qconvolution0_weight", t5), ("fc0_bias", tb)]

/-- Expected output for `entries1`. -/
def out1 : List (String × Tensor) := [("qconvolution0_weight", t5pack), ("fc0_bias", tb)]

/-- Fixture file system holding one empty checkpoint. -/
def fsA : FS := { params := [("model-0.params", [])], jsons := [] }

/-- `fsA` after the Weight Packer wrote the (empty) converted checkpoint. -/
def fsA1 : FS :=
  { params := [("." ++ "/" ++ "binarized_" ++ "model-0.params", []), ("model-0.params", [])],
    jsons := [] }

/-! ## Helper lemmas: Weight Packer -/

/-- The only `return` of `convert_params_file` returns 0. -/
theorem convert_params_file_ret_eq_zero (fs : FS) (i o : String) (r : Int × FS)
    (h : convert_params_file fs i o = some r) : r.1 = 0 := by
  unfold convert_params_file at h
  split at h
  · exact Option.noConfusion h
  · split at h
    · exact Option.noConfusion h
    · cases h
      rfl

/-- A fatal entry anywhere in the checkpoint aborts the whole loop. -/
theorem convertEntries_eq_none (entries : List (String × Tensor)) (k : String)
    (t : Tensor) (hmem : (k, t) ∈ entries) (hnone : processEntry k t = none) :
    convertEntries entries = none := by
  induction entries with
  | nil => cases hmem
  | cons e rest ih =>
    obtain ⟨k', t'⟩ := e
    rcases List.mem_cons.mp hmem with heq | hmem'
    · cases heq
      simp [convertEntries, hnone]
    · simp only [convertEntries]
      cases hpe : processEntry k' t' with
      | none => rfl
      | some t'' => rw [ih hmem']

/-- A selected tensor whose second dimension is not divisible by the word
width makes `convert_to_binary` abort. -/
theorem convert_to_binary_eq_none_of_bad_dim (t : Tensor)
    (hmod : t.shape.getD 1 0 % BITS_PER_BINARY_WORD ≠ 0) :
    convert_to_binary t = none := by
  unfold convert_to_binary
  split_ifs with h1 h2
  · rfl
  · rfl
  · rfl

/-! ## Claim theorems: Weight Packer -/

/-- C2: for every tensor selected for packing that satisfies the
precondition (so that `convert_to_binary` completes), the resulting packed
tensor is 1-dimensional, its length is the total element count of the source
divided by `BITS_PER_BINARY_WORD`, and that division is exact. -/
theorem claim2_packed_tensor_shape (t t' : Tensor)
    (h : convert_to_binary t = some t') :
    t'.shape = [t.shape.prod / BITS_PER_BINARY_WORD] ∧
    t'.data.length = t.shape.prod / BITS_PER_BINARY_WORD ∧
    t.shape.prod % BITS_PER_BINARY_WORD = 0 := by
  unfold convert_to_binary at h
  split_ifs at h with h1 h2 h3
  injection h with h
  subst h
  have h3' : t.shape.getD 1 0 % BITS_PER_BINARY_WORD = 0 := not_not.mp h3
  refine ⟨rfl, by simp [get_binary_row], ?_⟩
  obtain ⟨a, b, rest, hs⟩ : ∃ a b rest, t.shape = a :: b :: rest := by
    match hsh : t.shape with
    | [] => rw [hsh] at h2; simp at h2
    | [a] => rw [hsh] at h2; simp at h2
    | a :: b :: rest => exact ⟨a, b, rest, rfl⟩
  rw [hs] at h3' ⊢
  simp only [List.getD_cons_succ, List.getD_cons_zero] at h3'
  have hb : BITS_PER_BINARY_WORD ∣ b := Nat.dvd_of_mod_eq_zero h3'
  have hdvd : BITS_PER_BINARY_WORD ∣ (a :: b :: rest).prod := by
    simp only [List.prod_cons]
    exact hb.trans (dvd_mul_of_dvd_right (dvd_mul_right b rest.prod) a)
  exact Nat.mod_eq_zero_of_dvd hdvd

/-- C2 witness: the fixture weight tensor `t5` packs to shape `[1]`. -/
theorem claim2_packed_tensor_shape_witness :
    t5pack.shape = [t5.shape.prod / BITS_PER_BINARY_WORD] ∧
    t5pack.data.length = t5.shape.prod / BITS_PER_BINARY_WORD ∧
    t5.shape.prod % BITS_PER_BINARY_WORD = 0 :=
  claim2_packed_tensor_shape t5 t5pack (by decide)

/-- C5 counterexample: the claim says the packed tensor's element type is
the packed-word type `BINARY_WORD`; on the concretely packed weight tensor
`t5` the written element-type tag is still the input's `float32`, which is
not the packed-word type. -/
theorem claim5_counterexample :
    (convert_to_binary t5).map Tensor.dtype = some DType.float32 ∧
    DType.float32 ≠ BINARY_WORD_dtype := by
  exact ⟨by decide, by decide⟩

/-- C5 (amended): for every tensor selected for packing, the output
tensor's element-type tag equals the input's (floating-point) element type;
the code only asserts that this type has the same byte width as
`BINARY_WORD` and reinterprets the payload as packed words. -/
theorem claim5_dtype_preserved (t t' : Tensor)
    (h : convert_to_binary t = some t') :
    t'.dtype = t.dtype ∧ mshadow_sizeof t.dtype = sizeof_BINARY_WORD := by
  unfold convert_to_binary at h
  split_ifs at h with h1 h2 h3
  injection h with h
  subst h
  exact ⟨rfl, not_not.mp h1⟩

/-- C5 witness: the amended statement at the fixture tensor `t5`. -/
theorem claim5_dtype_preserved_witness :
    t5pack.dtype = t5.dtype ∧ mshadow_sizeof t5.dtype = sizeof_BINARY_WORD :=
  claim5_dtype_preserved t5 t5pack (by decide)

/-- C7: a checkpoint containing a selected entry (name matches a filter
substring and contains "weight") whose tensor has at least two dimensions
but a second dimension not divisible by `BITS_PER_BINARY_WORD` makes the
Weight Packer run abort (`none`): it fails before any output file is
written. -/
theorem claim7_bad_dim_fatal (fs : FS) (input output : String)
    (entries : List (String × Tensor)) (k : String) (t : Tensor)
    (hload : lookupFile fs.params input = some entries)
    (hmem : (k, t) ∈ entries)
    (hfil : containsFilterString k = true)
    (hw : hasSubstr k "weight" = true)
    (hdim : 2 ≤ t.shape.length)
    (hmod : t.shape.getD 1 0 % BITS_PER_BINARY_WORD ≠ 0) :
    convert_params_file fs input output = none := by
  have hpe : processEntry k t = none := by
    simp [processEntry, hfil, hw, convert_to_binary_eq_none_of_bad_dim t hmod]
  simp [convert_params_file, hload, convertEntries_eq_none entries k t hmem hpe]

/-- C7 witness: a concrete checkpoint with a `[2, 3]`-shaped selected weight
tensor aborts. -/
theorem claim7_bad_dim_fatal_witness :
    convert_params_file
      { params := [("m-0.params", [("qconvolution0_weight", tBad)])], jsons := [] }
      "m-0.params" "out.params" = none :=
  claim7_bad_dim_fatal _ _ _ [("qconvolution0_weight", tBad)] "qconvolution0_weight" tBad
    rfl (by decide) (by decide) (by decide) (by decide) (by decide)

/-- C8: a checkpoint entry whose name contains a filter substring but not
"weight" trips the `CHECK` and the Weight Packer run aborts (`none`) before
the output checkpoint is written. -/
theorem claim8_non_weight_fatal (fs : FS) (input output : String)
    (entries : List (String × Tensor)) (k : String) (t : Tensor)
    (hload : lookupFile fs.params input = some entries)
    (hmem : (k, t) ∈ entries)
    (hfil : containsFilterString k = true)
    (hw : hasSubstr k "weight" = false) :
    convert_params_file fs input output = none := by
  have hpe : processEntry k t = none := by
    simp [processEntry, hfil, hw]
  simp [convert_params_file, hload, convertEntries_eq_none entries k t hmem hpe]

/-- C8 witness: the spec's own scenario, a `qfullyconnected0_bias` entry. -/
theorem claim8_non_weight_fatal_witness :
    convert_params_file
      { params := [("m-0.params", [("qfullyconnected0_bias", tb)])], jsons := [] }
      "m-0.params" "out.params" = none :=
  claim8_non_weight_fatal _ _ _ [("qfullyconnected0_bias", tb)] "qfullyconnected0_bias" tb
    rfl (by decide) (by decide) (by decide)

/-- C10: whenever `convert_params_file` returns at all (its model yields
`some`), the returned code is 0: every packer failure is an abort (`none`),
never a nonzero return value. -/
theorem claim10_packer_returns_zero (fs : FS) (i o : String) (r : Int × FS)
    (h : convert_params_file fs i o = some r) : r.1 = 0 :=
  convert_params_file_ret_eq_zero fs i o r h

/-- C10 witness: a concrete successful run returns 0. -/
theorem claim10_packer_returns_zero_witness : ((0 : Int), fsA1).1 = 0 :=
  claim10_packer_returns_zero fsA "model-0.params"
    ("." ++ "/" ++ "binarized_" ++ "model-0.params") (0, fsA1) rfl

/-- C1: on a checkpoint on which the Weight Packer completes successfully,
the output has the same number of entries, at each position the same name,
and an entry's tensor is the bit-packed (`convert_to_binary`) image of the
input tensor iff the name contains a filter substring ("qconvolution" or
"qfullyconnected") and contains "weight"; any other entry's tensor is
unmodified at its position. -/
theorem claim1_selection_law (entries out : List (String × Tensor))
    (h : convertEntries entries = some out) :
    out.length = entries.length ∧
    ∀ i, i < entries.length →
      (out.getD i dummyEntry).1 = (entries.getD i dummyEntry).1 ∧
      (if (containsFilterString (entries.getD i dummyEntry).1 &&
            hasSubstr (entries.getD i dummyEntry).1 "weight") = true
       then convert_to_binary (entries.getD i dummyEntry).2 = some (out.getD i dummyEntry).2
       else (out.getD i dummyEntry).2 = (entries.getD i dummyEntry).2) := by
  induction entries generalizing out with
  | nil =>
    cases h
    exact ⟨rfl, fun i hi => absurd hi (by simp)⟩
  | cons e rest ih =>
    obtain ⟨k, t⟩ := e
    simp only [convertEntries] at h
    cases hpe : processEntry k t with
    | none => rw [hpe] at h; exact Option.noConfusion h
    | some t' =>
      rw [hpe] at h
      cases hrest : convertEntries rest with
      | none => rw [hrest] at h; exact Option.noConfusion h
      | some rest' =>
        rw [hrest] at h
        injection h with h
        subst h
        obtain ⟨ihlen, ihpt⟩ := ih rest' hrest
        refine ⟨by simpa using ihlen, ?_⟩
        intro i hi
        cases i with
        | zero =>
          refine ⟨rfl, ?_⟩
          simp only [List.getD_cons_zero]
          unfold processEntry at hpe
          cases hfil : containsFilterString k with
          | false =>
            rw [hfil] at hpe
            simp only [Bool.false_eq_true, if_false] at hpe
            injection hpe with hpe
            simp [hfil, hpe]
          | true =>
            rw [hfil] at hpe
            cases hw : hasSubstr k "weight" with
            | false =>
              rw [hw] at hpe
              simp at hpe
            | true =>
              rw [hw] at hpe
              simp only [if_true] at hpe
              simp only [hfil, hw, Bool.and_self, if_true]
              simpa using hpe
        | succ j =>
          have hj : j < rest.length := by simpa using hi
          simpa using ihpt j hj

/-- C1 witness: the fixture checkpoint (one matched weight entry, one
unmatched entry) converts successfully and the output has both entries. -/
theorem claim1_selection_law_witness : out1.length = entries1.length :=
  (claim1_selection_law entries1 out1 (by decide)).1

/-! ## Helper lemmas: member lists -/

/-- Looking up the replaced key yields the new value (when the key exists). -/
theorem findMember_replaceMember_self (ms : List (String × JValue)) (k : String)
    (v w : JValue) (h : findMember ms k = some w) :
    findMember (replaceMember ms k v) k = some v := by
  induction ms with
  | nil => exact Option.noConfusion h
  | cons e rest ih =>
    obtain ⟨k', w'⟩ := e
    by_cases hk : k' = k
    · subst hk
      simp [replaceMember, findMember]
    · simp only [findMember, if_neg hk] at h
      simp [replaceMember, findMember, hk, ih h]

/-- Replacing one key leaves lookups of any other key unchanged. -/
theorem findMember_replaceMember_ne (ms : List (String × JValue)) (k k' : String)
    (v : JValue) (hne : k' ≠ k) :
    findMember (replaceMember ms k v) k' = findMember ms k' := by
  induction ms with
  | nil => rfl
  | cons e rest ih =>
    obtain ⟨k₀, w⟩ := e
    by_cases hk : k₀ = k
    · subst hk
      have hne' : k₀ ≠ k' := fun hh => hne hh.symm
      simp [replaceMember, findMember, hne']
    · simp [replaceMember, findMember, hk, ih]

/-- Replacing the same key twice keeps only the last value. -/
theorem replaceMember_replaceMember (ms : List (String × JValue)) (k : String)
    (v v' : JValue) :
    replaceMember (replaceMember ms k v) k v' = replaceMember ms k v' := by
  induction ms with
  | nil => rfl
  | cons e rest ih =>
    obtain ⟨k₀, w⟩ := e
    by_cases hk : k₀ = k
    · subst hk
      simp [replaceMember]
    · simp [replaceMember, hk, ih]

/-- Appending a fresh member makes it visible to lookup. -/
theorem findMember_append_fresh (ms : List (String × JValue)) (k : String)
    (v : JValue) (h : findMember ms k = none) :
    findMember (ms ++ [(k, v)]) k = some v := by
  induction ms with
  | nil => simp [findMember]
  | cons e rest ih =>
    obtain ⟨k₀, w⟩ := e
    by_cases hk : k₀ = k
    · subst hk
      simp [findMember] at h
    · simp only [findMember, if_neg hk] at h
      simp [findMember, hk, ih h]

/-- Replacing a key that does not occur is the identity. -/
theorem replaceMember_of_not_found (ms : List (String × JValue)) (k : String)
    (v : JValue) (h : findMember ms k = none) :
    replaceMember ms k v = ms := by
  induction ms with
  | nil => rfl
  | cons e rest ih =>
    obtain ⟨k₀, w⟩ := e
    by_cases hk : k₀ = k
    · subst hk
      simp [findMember] at h
    · simp only [findMember, if_neg hk] at h
      simp [replaceMember, hk, ih h]

/-- Unfolding equation of `addMember` when the key already occurs. -/
theorem addMember_of_found (ms : List (String × JValue)) (k : String)
    (v w : JValue) (h : findMember ms k = some w) :
    addMember ms k v = replaceMember ms k v := by
  unfold addMember
  rw [h]

/-- Unfolding equation of `addMember` when the key is fresh. -/
theorem addMember_of_not_found (ms : List (String × JValue)) (k : String)
    (v : JValue) (h : findMember ms k = none) :
    addMember ms k v = ms ++ [(k, v)] := by
  unfold addMember
  rw [h]

/-- After `addMember`, looking the key up yields the inserted value. -/
theorem findMember_addMember_self (ms : List (String × JValue)) (k : String)
    (v : JValue) : findMember (addMember ms k v) k = some v := by
  cases h : findMember ms k with
  | none => rw [addMember_of_not_found ms k v h]; exact findMember_append_fresh ms k v h
  | some w => rw [addMember_of_found ms k v w h]; exact findMember_replaceMember_self ms k v w h

/-- Replacing a key by the value it already holds (at its first occurrence)
is the identity. -/
theorem replaceMember_found_same (ms : List (String × JValue)) (k : String)
    (v : JValue) (h : findMember ms k = some v) :
    replaceMember ms k v = ms := by
  induction ms with
  | nil => rfl
  | cons e rest ih =>
    obtain ⟨k₀, w⟩ := e
    by_cases hk : k₀ = k
    · subst hk
      simp only [findMember, if_pos rfl] at h
      injection h with h
      simp [replaceMember, h]
    · simp only [findMember, if_neg hk] at h
      simp [replaceMember, hk, ih h]

/-- Inserting the same member twice is the same as inserting it once. -/
theorem addMember_idem (ms : List (String × JValue)) (k : String) (v : JValue) :
    addMember (addMember ms k v) k v = addMember ms k v := by
  rw [addMember_of_found (addMember ms k v) k v v (findMember_addMember_self ms k v)]
  exact replaceMember_found_same _ k v (findMember_addMember_self ms k v)

/-! ## Helper lemmas: Graph Annotator -/

/-- Success characterization of one node iteration: a non-matching object
node is returned unchanged, a matching one has its "attr" object extended
with the `binarized_weights_only` flag. -/
theorem annotateNode_spec (m : List (String × JValue)) (n' : JValue)
    (h : annotateNode (JValue.jobj m) = some n') :
    (opMatches m = false → n' = JValue.jobj m) ∧
    (opMatches m = true →
      ∃ attrs s, findMember m "attr" = some (JValue.jobj attrs) ∧
        findMember m "name" = some (JValue.jstr s) ∧
        n' = JValue.jobj (replaceMember m "attr"
          (JValue.jobj (addMember attrs "binarized_weights_only" (JValue.jstr "True"))))) := by
  simp only [annotateNode] at h
  cases hop : opMatches m with
  | false =>
    rw [hop] at h
    simp only [Bool.false_eq_true, if_false] at h
    injection h with h
    exact ⟨fun _ => h.symm, fun hc => Bool.noConfusion hc⟩
  | true =>
    rw [hop] at h
    simp only [if_true] at h
    refine ⟨fun hc => Bool.noConfusion hc, fun _ => ?_⟩
    cases hattr : findMember m "attr" with
    | none => rw [hattr] at h; exact Option.noConfusion h
    | some av =>
      rw [hattr] at h
      cases av with
      | jobj attrs =>
        cases hname : findMember m "name" with
        | none => rw [hname] at h; exact Option.noConfusion h
        | some nv =>
          rw [hname] at h
          cases nv with
          | jstr s =>
            injection h with h
            exact ⟨attrs, s, rfl, rfl, h.symm⟩
          | jnull => exact Option.noConfusion h
          | jbool b => exact Option.noConfusion h
          | jnum n => exact Option.noConfusion h
          | jarr l => exact Option.noConfusion h
          | jobj ms => exact Option.noConfusion h
      | jnull => exact Option.noConfusion h
      | jbool b => exact Option.noConfusion h
      | jnum n => exact Option.noConfusion h
      | jstr s => exact Option.noConfusion h
      | jarr l => exact Option.noConfusion h

/-- A node that aborts anywhere in the array aborts the whole node loop. -/
theorem annotateNodes_eq_none (nodes : List JValue) (n : JValue)
    (hmem : n ∈ nodes) (hnone : annotateNode n = none) :
    annotateNodes nodes = none := by
  induction nodes with
  | nil => cases hmem
  | cons n₀ rest ih =>
    rcases List.mem_cons.mp hmem with heq | hmem'
    · subst heq
      simp [annotateNodes, hnone]
    · simp only [annotateNodes]
      cases hpe : annotateNode n₀ with
      | none => rfl
      | some n₀' => rw [ih hmem']

/-- Pointwise success characterization of the node loop. -/
theorem annotateNodes_spec (nodes nodes' : List JValue)
    (h : annotateNodes nodes = some nodes') :
    nodes'.length = nodes.length ∧
    ∀ i, i < nodes.length →
      annotateNode (nodes.getD i JValue.jnull) = some (nodes'.getD i JValue.jnull) := by
  induction nodes generalizing nodes' with
  | nil =>
    cases h
    exact ⟨rfl, fun i hi => absurd hi (by simp)⟩
  | cons n rest ih =>
    simp only [annotateNodes] at h
    cases hpe : annotateNode n with
    | none => rw [hpe] at h; exact Option.noConfusion h
    | some n' =>
      rw [hpe] at h
      cases hrest : annotateNodes rest with
      | none => rw [hrest] at h; exact Option.noConfusion h
      | some rest' =>
        rw [hrest] at h
        injection h with h
        subst h
        obtain ⟨ihlen, ihpt⟩ := ih rest' hrest
        refine ⟨by simpa using ihlen, ?_⟩
        intro i hi
        cases i with
        | zero => simpa using hpe
        | succ j => simpa using ihpt j (by simpa using hi)

/-- Unfolding equation of `convert_json_document` once the "nodes" member is
known to hold an array. -/
theorem convert_json_document_eq (members : List (String × JValue))
    (nodes : List JValue)
    (hn : findMember members "nodes" = some (JValue.jarr nodes)) :
    convert_json_document (JValue.jobj members) =
      match annotateNodes nodes with
      | none => none
      | some nodes' =>
        some (JValue.jobj (replaceMember members "nodes" (JValue.jarr nodes'))) := by
  simp only [convert_json_document]
  rw [hn]

/-! ## Fixtures: graph documents -/

/-- A matching graph node with an empty attribute map (the spec's scenario). -/
def node3 : JValue :=
  JValue.jobj [("op", JValue.jstr "QConvolution"), ("name", JValue.jstr "c0"),
    ("attr", JValue.jobj [])]

/-- `node3` after annotation. -/
def node3' : JValue :=
  JValue.jobj [("op", JValue.jstr "QConvolution"), ("name", JValue.jstr "c0"),
    ("attr", JValue.jobj [("binarized_weights_only", JValue.jstr "True")])]

/-- The member list of the scenario document. -/
def members3 : List (String × JValue) := [("nodes", JValue.jarr [node3])]

/-- The scenario document `{"nodes":[{"op":"QConvolution","name":"c0","attr":{}}]}`. -/
def doc3 : JValue := JValue.jobj members3

/-- The annotated scenario document. -/
def doc3' : JValue := JValue.jobj [("nodes", JValue.jarr [node3'])]

/-- A document whose single node has a non-string "op" member. -/
def doc6 : JValue :=
  JValue.jobj [("nodes", JValue.jarr [JValue.jobj [("op", JValue.jnum 3)]])]

/-! ## Claim theorems: Graph Annotator -/

/-- C3: on any graph document with a "nodes" array on which the Annotator
completes, the output document differs from the input only in the value of
the "nodes" member; the node count is unchanged, a node whose "op" member is
not the string "QConvolution" or "QFullyConnected" is unchanged at its
position, and a matching node is changed exactly by replacing its "attr"
object with the same object extended by the member
`"binarized_weights_only" : "True"` (whose lookup then yields "True"). -/
theorem claim3_annotate_law (members : List (String × JValue))
    (nodes nodes' : List JValue) (d' : JValue)
    (hn : findMember members "nodes" = some (JValue.jarr nodes))
    (ha : annotateNodes nodes = some nodes')
    (h : convert_json_document (JValue.jobj members) = some d') :
    d' = JValue.jobj (replaceMember members "nodes" (JValue.jarr nodes')) ∧
    nodes'.length = nodes.length ∧
    (∀ i, i < nodes.length → ∀ m, nodes.getD i JValue.jnull = JValue.jobj m →
      (opMatches m = false → nodes'.getD i JValue.jnull = nodes.getD i JValue.jnull) ∧
      (opMatches m = true →
        ∃ attrs, findMember m "attr" = some (JValue.jobj attrs) ∧
          nodes'.getD i JValue.jnull = JValue.jobj (replaceMember m "attr"
            (JValue.jobj (addMember attrs "binarized_weights_only" (JValue.jstr "True")))) ∧
          findMember (addMember attrs "binarized_weights_only" (JValue.jstr "True"))
            "binarized_weights_only" = some (JValue.jstr "True"))) := by
  rw [convert_json_document_eq members nodes hn, ha] at h
  have h2 : some (JValue.jobj (replaceMember members "nodes" (JValue.jarr nodes'))) =
      some d' := h
  injection h2 with h2
  subst h2
  obtain ⟨hlen, hpt⟩ := annotateNodes_spec nodes nodes' ha
  refine ⟨rfl, hlen, ?_⟩
  intro i hi m hm
  have hnode := hpt i hi
  rw [hm] at hnode
  obtain ⟨hno, hyes⟩ := annotateNode_spec m (nodes'.getD i JValue.jnull) hnode
  refine ⟨fun hop => by rw [hno hop, hm], fun hop => ?_⟩
  obtain ⟨attrs, s, hattr, hname, heq⟩ := hyes hop
  exact ⟨attrs, hattr, heq, findMember_addMember_self attrs _ _⟩

/-- C3 witness: the spec's scenario document annotates to the expected
output, which differs only in the "nodes" member. -/
theorem claim3_annotate_law_witness :
    doc3' = JValue.jobj (replaceMember members3 "nodes" (JValue.jarr [node3'])) :=
  (claim3_annotate_law members3 [node3] [node3'] doc3' rfl rfl rfl).1

/-- C6 counterexample: the claim says a node whose "op" member is present
but not a string makes the Annotator abort; on `doc6` (op is the number 3)
the Annotator instead completes and leaves the document unchanged. -/
theorem claim6_counterexample : convert_json_document doc6 = some doc6 := rfl

/-- C6 (amended): the Annotator aborts (`none`) when the top-level "nodes"
member is absent, when it is present but not an array, or when a node of the
array aborts — in particular a matching node without an "attr" member; but a
node whose "op" member is present and not a string simply does not match and
is skipped unchanged rather than aborting. -/
theorem claim6_structural_aborts :
    (∀ members, findMember members "nodes" = none →
      convert_json_document (JValue.jobj members) = none) ∧
    (∀ members v, findMember members "nodes" = some v →
      (∀ l, v ≠ JValue.jarr l) →
      convert_json_document (JValue.jobj members) = none) ∧
    (∀ members nodes n, findMember members "nodes" = some (JValue.jarr nodes) →
      n ∈ nodes → annotateNode n = none →
      convert_json_document (JValue.jobj members) = none) ∧
    (∀ m, opMatches m = true → findMember m "attr" = none →
      annotateNode (JValue.jobj m) = none) ∧
    (∀ m s, findMember m "op" = some s → (∀ str, s ≠ JValue.jstr str) →
      opMatches m = false) ∧
    (∀ m, opMatches m = false → annotateNode (JValue.jobj m) = some (JValue.jobj m)) := by
  refine ⟨?_, ?_, ?_, ?_, ?_, ?_⟩
  · intro members h
    simp only [convert_json_document]
    rw [h]
  · intro members v h hne
    simp only [convert_json_document]
    rw [h]
    cases v with
    | jarr l => exact absurd rfl (hne l)
    | jnull => rfl
    | jbool b => rfl
    | jnum n => rfl
    | jstr s => rfl
    | jobj ms => rfl
  · intro members nodes n h hmem hnone
    rw [convert_json_document_eq members nodes h,
      annotateNodes_eq_none nodes n hmem hnone]
  · intro m hop hattr
    simp only [annotateNode]
    rw [hop, hattr]
    simp
  · intro m s hfind hns
    unfold opMatches
    rw [hfind]
    cases s with
    | jstr str => exact absurd rfl (hns str)
    | jnull => rfl
    | jbool b => rfl
    | jnum n => rfl
    | jarr l => rfl
    | jobj ms => rfl
  · intro m hop
    simp only [annotateNode]
    rw [hop]
    simp

/-- C6 witness: the amended statement at concrete inputs — a document
without "nodes" aborts, and a node with a numeric "op" is skipped. -/
theorem claim6_structural_aborts_witness :
    convert_json_document (JValue.jobj []) = none ∧
    annotateNode (JValue.jobj [("op", JValue.jnum 3)]) =
      some (JValue.jobj [("op", JValue.jnum 3)]) :=
  ⟨claim6_structural_aborts.1 [] rfl,
   claim6_structural_aborts.2.2.2.2.2 [("op", JValue.jnum 3)] rfl⟩

/-! ## Helper lemmas: idempotence of the Annotator -/

/-- Success equation for one matched node. -/
theorem annotateNode_of_matched (m : List (String × JValue))
    (attrs : List (String × JValue)) (s : String)
    (hop : opMatches m = true)
    (hattr : findMember m "attr" = some (JValue.jobj attrs))
    (hname : findMember m "name" = some (JValue.jstr s)) :
    annotateNode (JValue.jobj m) = some (JValue.jobj (replaceMember m "attr"
      (JValue.jobj (addMember attrs "binarized_weights_only" (JValue.jstr "True"))))) := by
  simp only [annotateNode]
  rw [hop, if_pos rfl, hattr, hname]

/-- Success equation for one unmatched object node. -/
theorem annotateNode_of_unmatched (m : List (String × JValue))
    (hop : opMatches m = false) :
    annotateNode (JValue.jobj m) = some (JValue.jobj m) := by
  simp only [annotateNode]
  rw [hop]
  simp

/-- Annotating an already-annotated node changes nothing further. -/
theorem annotateNode_idem (n n' : JValue) (h : annotateNode n = some n') :
    annotateNode n' = some n' := by
  cases n with
  | jobj m =>
    obtain ⟨hno, hyes⟩ := annotateNode_spec m n' h
    cases hop : opMatches m with
    | false =>
      rw [hno hop]
      exact annotateNode_of_unmatched m hop
    | true =>
      obtain ⟨attrs, s, hattr, hname, heq⟩ := hyes hop
      subst heq
      have hopEq : opMatches (replaceMember m "attr"
          (JValue.jobj (addMember attrs "binarized_weights_only" (JValue.jstr "True")))) =
          opMatches m := by
        unfold opMatches
        rw [findMember_replaceMember_ne m "attr" "op" _ (by decide)]
      have hattr' := findMember_replaceMember_self m "attr"
        (JValue.jobj (addMember attrs "binarized_weights_only" (JValue.jstr "True")))
        (JValue.jobj attrs) hattr
      have hname' : findMember (replaceMember m "attr"
          (JValue.jobj (addMember attrs "binarized_weights_only" (JValue.jstr "True"))))
          "name" = some (JValue.jstr s) := by
        rw [findMember_replaceMember_ne m "attr" "name" _ (by decide)]
        exact hname
      rw [annotateNode_of_matched _ _ s (hopEq.trans hop) hattr' hname']
      rw [addMember_idem, replaceMember_replaceMember]
  | jnull => exact Option.noConfusion h
  | jbool b => exact Option.noConfusion h
  | jnum v => exact Option.noConfusion h
  | jstr s => exact Option.noConfusion h
  | jarr l => exact Option.noConfusion h

/-- Annotating an already-annotated node list changes nothing further. -/
theorem annotateNodes_idem (nodes nodes' : List JValue)
    (h : annotateNodes nodes = some nodes') :
    annotateNodes nodes' = some nodes' := by
  induction nodes generalizing nodes' with
  | nil => cases h; rfl
  | cons n rest ih =>
    simp only [annotateNodes] at h
    cases hpe : annotateNode n with
    | none => rw [hpe] at h; exact Option.noConfusion h
    | some n' =>
      rw [hpe] at h
      cases hrest : annotateNodes rest with
      | none => rw [hrest] at h; exact Option.noConfusion h
      | some rest' =>
        rw [hrest] at h
        injection h with h
        subst h
        simp only [annotateNodes]
        rw [annotateNode_idem n n' hpe, ih rest' hrest]

/-- A document without a "nodes" member makes the Annotator abort. -/
theorem convert_json_document_no_nodes (members : List (String × JValue))
    (h : findMember members "nodes" = none) :
    convert_json_document (JValue.jobj members) = none := by
  simp only [convert_json_document]
  rw [h]

/-- A document whose "nodes" member is not an array makes the Annotator
abort. -/
theorem convert_json_document_nodes_not_array (members : List (String × JValue))
    (v : JValue) (h : findMember members "nodes" = some v)
    (hne : ∀ l, v ≠ JValue.jarr l) :
    convert_json_document (JValue.jobj members) = none := by
  simp only [convert_json_document]
  rw [h]
  cases v with
  | jarr l => exact absurd rfl (hne l)
  | jnull => rfl
  | jbool b => rfl
  | jnum n => rfl
  | jstr s => rfl
  | jobj ms => rfl

/-! ## Claim theorem: Annotator idempotence -/

/-- C4: running the Annotator on its own output reproduces that output
exactly: with last-write-wins member insertion, a second run replaces the
already-present `binarized_weights_only` member by the same value "True"
instead of duplicating it, so no field of the document changes. -/
theorem claim4_annotator_idempotent (d d1 : JValue)
    (h : convert_json_document d = some d1) :
    convert_json_document d1 = some d1 := by
  cases d with
  | jobj members =>
    cases hn : findMember members "nodes" with
    | none =>
      rw [convert_json_document_no_nodes members hn] at h
      exact Option.noConfusion h
    | some v =>
      cases v with
      | jarr nodes =>
        rw [convert_json_document_eq members nodes hn] at h
        cases ha : annotateNodes nodes with
        | none => rw [ha] at h; exact Option.noConfusion h
        | some nodes' =>
          rw [ha] at h
          have h2 : some (JValue.jobj (replaceMember members "nodes"
              (JValue.jarr nodes'))) = some d1 := h
          injection h2 with h2
          subst h2
          have hn1 : findMember (replaceMember members "nodes" (JValue.jarr nodes'))
              "nodes" = some (JValue.jarr nodes') :=
            findMember_replaceMember_self members "nodes" _ _ hn
          rw [convert_json_document_eq _ nodes' hn1,
            annotateNodes_idem nodes nodes' ha]
          show some (JValue.jobj (replaceMember
              (replaceMember members "nodes" (JValue.jarr nodes')) "nodes"
              (JValue.jarr nodes'))) =
            some (JValue.jobj (replaceMember members "nodes" (JValue.jarr nodes')))
          rw [replaceMember_replaceMember]
      | jnull =>
        rw [convert_json_document_nodes_not_array members _ hn
          (fun l hl => JValue.noConfusion hl)] at h
        exact Option.noConfusion h
      | jbool b =>
        rw [convert_json_document_nodes_not_array members _ hn
          (fun l hl => JValue.noConfusion hl)] at h
        exact Option.noConfusion h
      | jnum n =>
        rw [convert_json_document_nodes_not_array members _ hn
          (fun l hl => JValue.noConfusion hl)] at h
        exact Option.noConfusion h
      | jstr s =>
        rw [convert_json_document_nodes_not_array members _ hn
          (fun l hl => JValue.noConfusion hl)] at h
        exact Option.noConfusion h
      | jobj ms =>
        rw [convert_json_document_nodes_not_array members _ hn
          (fun l hl => JValue.noConfusion hl)] at h
        exact Option.noConfusion h
  | jnull => exact Option.noConfusion h
  | jbool b => exact Option.noConfusion h
  | jnum v => exact Option.noConfusion h
  | jstr s => exact Option.noConfusion h
  | jarr l => exact Option.noConfusion h

/-- C4 witness: annotating the already-annotated scenario document
reproduces it. -/
theorem claim4_annotator_idempotent_witness :
    convert_json_document doc3' = some doc3' :=
  claim4_annotator_idempotent doc3 doc3' rfl

/-! ## Claim theorem: driver behavior on a missing companion JSON file -/

/-- C9: when the Weight Packer stage has returned success and the companion
graph-description file cannot be opened, the Annotator returns the failure
code -1 leaving the file system untouched (no output file created), and the
whole run exits with the nonzero status 1. -/
theorem claim9_missing_json (fs fs1 : FS) (p : String) (i : Nat) (r1 : Int)
    (hsplit : rfindChar (basenameStr p) '-' = some i)
    (hpack : convert_params_file fs p
      (dirnameStr p ++ "/" ++ "binarized_" ++ basenameStr p) = some (r1, fs1))
    (hmiss : lookupFile fs1.jsons
      (dirnameStr p ++ "/" ++ takeChars (basenameStr p) i ++ "-symbol.json") = none) :
    convert_json_file fs1
      (dirnameStr p ++ "/" ++ takeChars (basenameStr p) i ++ "-symbol.json")
      (dirnameStr p ++ "/" ++ "binarized_" ++ takeChars (basenameStr p) i ++ "-symbol.json")
      = some (-1, fs1) ∧
    mainRun fs [p] = some (1, fs1) := by
  have hr1 : r1 = 0 := convert_params_file_ret_eq_zero fs p _ (r1, fs1) hpack
  subst hr1
  have hjson : convert_json_file fs1
      (dirnameStr p ++ "/" ++ takeChars (basenameStr p) i ++ "-symbol.json")
      (dirnameStr p ++ "/" ++ "binarized_" ++ takeChars (basenameStr p) i ++ "-symbol.json")
      = some (-1, fs1) := by
    unfold convert_json_file
    rw [hmiss]
  refine ⟨hjson, ?_⟩
  simp only [mainRun, hsplit, hpack, hjson]
  norm_num

/-- C9 witness: a concrete run whose checkpoint converts but whose companion
JSON file is absent exits with status 1 and leaves only the packed
checkpoint written. -/
theorem claim9_missing_json_witness :
    convert_json_file fsA1
      (dirnameStr "model-0.params" ++ "/" ++
        takeChars (basenameStr "model-0.params") 5 ++ "-symbol.json")
      (dirnameStr "model-0.params" ++ "/" ++ "binarized_" ++
        takeChars (basenameStr "model-0.params") 5 ++ "-symbol.json")
      = some (-1, fsA1) ∧
    mainRun fsA ["model-0.params"] = some (1, fsA1) :=
  claim9_missing_json fsA fsA1 "model-0.params" 5 0 rfl rfl rfl

end ModelConverter
